import Mathlib

/-!
Shallow embedding of the CSV-to-object parsing engine of `CSVParser.h`
(vlaxcs/CSV-Object-Parser-CPP).  Rows and cells are lists of characters,
the file is a list of physical lines (what consecutive `std::getline`
calls on the stream would yield).  Fallible C++ code (throwing
exceptions) is embedded with `Except`; machine integers decoded from
cells are unbounded `Int` (the claims under study do not exercise
overflow).  The two compile-time modes of the template - one uniform
field type versus an ordered field-type signature - are reified in the
`Mode` inductive, and the compile-time constants
`max_args_unique_type` / `max_args_multiple_types` become its fields.
-/

deriving instance DecidableEq for Except

namespace CSV

/-- A C++ `std::string`, represented as its character list. -/
abbrev Str := List Char

/-- The `'\0'` sentinel the source stores in `delimiter` while no
delimiter has been set (`CSVParser` constructors, line 365/377). -/
def nullChar : Char := Char.ofNat 0

/-- The double-quote character, the source's default `quote` member. -/
def dquote : Char := Char.ofNat 34

/-- Field types the engine is instantiated at in this development:
`std::string` cells and stream-parsed arithmetic (`int`) cells, the two
behavioural classes of `parseCSVCell`. -/
inductive FieldTy
  | str
  | int
deriving DecidableEq

/-- A decoded cell value. -/
inductive Value
  | vStr (s : Str)
  | vInt (n : Int)
deriving DecidableEq

/-- `TCell{}`: the zero/default value of a field type. -/
def defaultValue : FieldTy → Value
  | .str => .vStr []
  | .int => .vInt 0

/-- Exceptions thrown inside `parseCSVCell`: the
`"Unterminated quoted field"` and `"Failed to parse the cell"`
`std::runtime_error`s. -/
inductive CellError
  | unterminated
  | decodeFail
deriving DecidableEq

/-- The error conditions surfaced by the engine, by kind:
the `CSVException` subclasses of the source plus the two
`std::runtime_error` / `std::invalid_argument` escapes
(`cellException` models an unterminated-quote error propagating out of
`trust_header`; `notEnoughArgs` models `constructObjectUniqueTypeArgs`
throwing; `typeMismatch` models `extractAndAdvance` throwing). -/
inductive ParseErr
  | wrongHeaderByDelimiter
  | wrongHeaderByAllDelimiters
  | wrongHeaderLength
  | cellException
  | notEnoughArgs
  | typeMismatch
deriving DecidableEq

/-- The compile-time shape of a `CSVParser<TObject, Types...>`
instantiation.
* `uniform ty isVecOfTy maxArity`: `sizeof...(Types) == 1` with field
  type `ty`; `isVecOfTy` is `std::is_same_v<TObject, std::vector<front_t>>`
  and `maxArity` is `max_args_unique_type` (lines 260, 272-294).
* `positional tys`: `sizeof...(Types) >= 2`.  `make_from_tuple<TObject>`
  over the full tuple of `Types...` (line 903) only compiles when the
  object is constructible from all of `Types...`, so
  `max_args_multiple_types = tys.length` for every instantiation that
  compiles. -/
inductive Mode
  | uniform (ty : FieldTy) (isVecOfTy : Bool) (maxArity : Nat)
  | positional (tys : List FieldTy)
deriving DecidableEq

/-- The arity the engine resolves for the output type:
`max_args_unique_type` in uniform mode, `max_args_multiple_types`
(= the signature length, see `Mode`) in positional mode. -/
def resolvedArity : Mode → Nat
  | .uniform _ _ maxA => maxA
  | .positional tys => tys.length

/-- `true` when the uniform-mode `std::vector<front_t>` escape hatch of
`checkMaxArgs` does not apply. -/
def noVecEscape : Mode → Prop
  | .uniform _ isVec _ => isVec = false
  | .positional _ => True

instance : ∀ m, Decidable (noVecEscape m) := by
  intro m
  cases m with
  | uniform ty isVec maxA => exact inferInstanceAs (Decidable (isVec = false))
  | positional tys => exact inferInstanceAs (Decidable True)

/-- The per-instance state of a `CSVParser` object (lines 266-270),
together with its compile-time `Mode`.  The static
`objectIdCounter` is threaded explicitly where it is used. -/
structure Parser where
  mode : Mode
  header : List Str
  custom_header : Bool
  has_id : Bool
  delimiter : Char
  quote : Char
  header_row : Nat
deriving DecidableEq

/-- What `trust_header` communicates back to `initialize`: the
`{custom_header, delimiter}` pair it returns plus the header its
`setHeader` calls left in the parser. -/
structure TrustResult where
  custom : Bool
  delim : Char
  header : List Str
deriving DecidableEq

/-- `default_delimiters` (line 263), in declaration order. -/
def defaultDelimiters : List Char := [',', '\t', ';', '|', ':', ' ', '~']

/- ======= Tokenizer: `std::getline(ss, cell, delimiter)` ======= -/

/-- Split a character list at every occurrence of `d`, keeping empty
pieces; always returns at least one piece. -/
def splitAllCells (d : Char) : Str → List Str
  | [] => [[]]
  | c :: cs =>
    let rest := splitAllCells d cs
    if c = d then [] :: rest
    else
      match rest with
      | [] => [[c]]
      | x :: xs => (c :: x) :: xs

/-- The sequence of cells a `while (std::getline(ss, cell, d))` loop
extracts from a stream holding `s`: no cell at all from an empty
stream, and a trailing delimiter produces no trailing empty cell
(the final `getline` extracts zero characters and fails). -/
def splitRow (d : Char) (s : Str) : List Str :=
  match s with
  | [] => []
  | _ :: _ => if s.getLast? = some d then (splitAllCells d s).dropLast else splitAllCells d s

/- ======= `parseCSVCell` ======= -/

/-- The quoted-cell merge loop of `parseCSVCell<std::string>`
(lines 837-847).  `cell` is the quote-stripped first segment, `segs`
the delimiter-separated segments still in the stream.  Each pass
re-appends the delimiter and the next segment; if the merged cell now
ends with the quote character the quote is stripped and the loop
breaks; otherwise the loop's sanity `getline` consumes (and discards)
one further segment, throwing `Unterminated quoted field` when the
stream is exhausted.  When the stream is exhausted at the top of the
loop the cell is returned as is. -/
def mergeQuotedSegs (q d : Char) : Str → List Str → Except CellError (Str × List Str)
  | cell, [] => .ok (cell, [])
  | cell, [t] =>
    let cell2 := cell ++ d :: t
    if cell2.getLast? = some q then .ok (cell2.dropLast, [])
    else .error .unterminated
  | cell, t :: u :: rest =>
    let cell2 := cell ++ d :: t
    if cell2.getLast? = some q then .ok (cell2.dropLast, u :: rest)
    else mergeQuotedSegs q d cell2 rest

/-- `parseCSVCell<std::string>` (lines 822-850): empty cell gives the
default; a leading quote is stripped; a cell whose last character is
already the quote closes immediately; otherwise segments are merged
via `mergeQuotedSegs`.  Returns the decoded string together with the
segments left in the stream. -/
def parseStringCell (q d : Char) (cell : Str) (segs : List Str) :
    Except CellError (Str × List Str) :=
  match cell with
  | [] => .ok ([], segs)
  | c :: cs =>
    if c = q then
      if cs ≠ [] ∧ cs.getLast? = some q then .ok (cs.dropLast, segs)
      else mergeQuotedSegs q d cs segs
    else .ok (c :: cs, segs)

/-- Digit run to a natural number. -/
def digitsToNat (ds : List Char) : Nat :=
  ds.foldl (fun a c => a * 10 + (c.toNat - 48)) 0

/-- `parseCSVCell<int>` (lines 822-825 and 852-860): an empty cell is
the zero value before any stream parse; otherwise `iss >> value`
skips leading whitespace, consumes an optional sign and a non-empty
leading digit run (trailing characters are tolerated), and fails -
`Failed to parse the cell` - when no digit can be read. -/
def parseCSVCellInt (cell : Str) : Except CellError Int :=
  if cell = [] then .ok 0
  else
    let cs := cell.dropWhile (fun c => c.isWhitespace)
    let signAndRest : Int × Str :=
      match cs with
      | '-' :: r => (-1, r)
      | '+' :: r => (1, r)
      | _ => (1, cs)
    let ds := signAndRest.2.takeWhile (fun c => c.isDigit)
    if ds = [] then .error .decodeFail
    else .ok (signAndRest.1 * (digitsToNat ds : Int))

/-- `parseCSVCell<TCell>` at one of the embedded field types, returning
the decoded value and the remaining stream segments (only string cells
consume further segments). -/
def parseCell (q d : Char) (ty : FieldTy) (cell : Str) (segs : List Str) :
    Except CellError (Value × List Str) :=
  match ty with
  | .str =>
    match parseStringCell q d cell segs with
    | .ok (s, rest) => .ok (.vStr s, rest)
    | .error e => .error e
  | .int =>
    match parseCSVCellInt cell with
    | .ok n => .ok (.vInt n, segs)
    | .error e => .error e

/-- The per-cell recovery the row constructors wrap around
`parseCSVCell` (lines 746-750 and 876-880): a throwing decode is
replaced by the type's zero value.  For an arithmetic `front_t` the
source's `front_t(0)` and `Head{}` are both that zero.  A string decode
throws only from the merge loop after exhausting the stream, so the
remaining segments are `[]` on that path. -/
def parseCellRecover (q d : Char) (ty : FieldTy) (cell : Str) (segs : List Str) :
    Value × List Str :=
  match ty, parseCell q d ty cell segs with
  | _, .ok (v, rest) => (v, rest)
  | .str, .error _ => (defaultValue .str, [])
  | .int, .error _ => (defaultValue .int, segs)

/- ======= Positional (multiple-types) row parsing ======= -/

/-- `parseMultipleTypesObjectFromRow<Types...>` (lines 737-790): one
node per declared type, in declaration order, each built from the next
`getline` segment (a failed `getline` leaves an empty cell) with the
per-cell recovery.  The node records its type (`typeid` tag) and
value. -/
def parseMultipleTypesRow (q d : Char) : List FieldTy → List Str → List (FieldTy × Value)
  | [], _ => []
  | ty :: tys, segs =>
    let cellRest : Str × List Str :=
      match segs with
      | [] => ([], [])
      | c :: r => (c, r)
    let vRest := parseCellRecover q d ty cellRest.1 cellRest.2
    (ty, vRest.1) :: parseMultipleTypesRow q d tys vRest.2

/-- `extractAndAdvance<T>` iterated over the whole chain: walking the
doubly-linked node list from its tail via `prev`, each step
`dynamic_cast`s the node to the expected type (throwing
`Type mismatch during object construction.` on failure, including on a
null node) and yields its value.  The first argument is the expected
types in traversal (reverse-declaration) order, the second the nodes in
traversal order. -/
def extractAndAdvanceAll : List FieldTy → List (FieldTy × Value) → Except ParseErr (List Value)
  | [], _ => .ok []
  | _ :: _, [] => .error .typeMismatch
  | ty :: tys, (nty, v) :: rest =>
    if nty = ty then
      match extractAndAdvanceAll tys rest with
      | .ok vs => .ok (v :: vs)
      | .error e => .error e
    else .error .typeMismatch

/-- `buildTupleFromNodes<Types...>` (lines 809-814):
`std::make_tuple(extractAndAdvance<Types>(node)...)` with `node`
starting at the tail of the chain and `extractAndAvance` stepping to
`prev`.  The arguments are evaluated right to left (the evaluation
order under which the chain walk lines up with the pack, and the one
the surrounding code is built for), so slot `N` is filled from the
tail node first; the resulting tuple lists the extracted values in
declaration order. -/
def buildTupleFromNodes (tys : List FieldTy) (nodes : List (FieldTy × Value)) :
    Except ParseErr (List Value) :=
  match extractAndAdvanceAll tys.reverse nodes.reverse with
  | .ok vs => .ok vs.reverse
  | .error e => .error e

/-- The positional branch of `parseObjectFromRow` (lines 888-904):
build the node chain, assemble the tuple, construct the object from the
tuple expanded positionally (`make_from_tuple`); the returned list is
that argument tuple in declaration order. -/
def parseObjectFromRowMT (q d : Char) (tys : List FieldTy) (row : Str) :
    Except ParseErr (List Value) :=
  buildTupleFromNodes tys (parseMultipleTypesRow q d tys (splitRow d row))

/- ======= Uniform-type row parsing ======= -/

/-- The cell-collection loop of the uniform branch of
`parseObjectFromRow` (lines 870-881):
`while (std::getline(ss, cell, delimiter) && current_cell_count++ < header.size())`
pushes at most `header.size()` decoded cells (per-cell recovery to the
zero value), threading the stream through string decodes. -/
def uniqueCells (q d : Char) (ty : FieldTy) : Nat → List Str → List Value
  | _, [] => []
  | 0, _ :: _ => []
  | n + 1, c :: rest =>
    let vRest := parseCellRecover q d ty c rest
    vRest.1 :: uniqueCells q d ty n vRest.2

/-- `constructObjectUniqueTypeArgs<TObject, front_t, N>` (lines
727-732): throws `std::invalid_argument` (`Not enough arguments in
vector`) when fewer values than `N` were collected, otherwise calls the
constructor on the first `N` values. -/
def constructObjectUniqueTypeArgs (arity : Nat) (vec : List Value) :
    Except ParseErr (List Value) :=
  if vec.length < arity then .error .notEnoughArgs
  else .ok (vec.take arity)

/-- `parseObjectFromRow` (lines 866-905), selecting the uniform or
positional algorithm from the compile-time mode.  In uniform mode with
`TObject = std::vector<front_t>` the decoded row is returned directly
with no constructor call. -/
def parseObjectFromRow (P : Parser) (row : Str) : Except ParseErr (List Value) :=
  match P.mode with
  | .uniform ty isVec maxA =>
    let temp := uniqueCells P.quote P.delimiter ty P.header.length (splitRow P.delimiter row)
    if isVec then .ok temp
    else constructObjectUniqueTypeArgs maxA temp
  | .positional tys => parseObjectFromRowMT P.quote P.delimiter tys row

/- ======= Header-row positioning ======= -/

/-- The number of `std::getline` calls performed by the header-seek
loop `do { std::getline(file, row); row_counter++; } while (row_counter == header_row)`
of `trust_header` (lines 494-497) and `initialize` (lines 411-414),
with the counter starting at 1.  The continuation test is an equality
on a strictly increasing counter, so it can succeed at most once and
the loop runs at most two iterations; a fuel of 2 therefore realises
the loop exactly. -/
def headerRowReads : Nat → Nat → Nat → Nat
  | 0, _, _ => 0
  | fuel + 1, hr, cr => 1 + (if cr + 1 = hr then headerRowReads fuel hr (cr + 1) else 0)

/-- Lines consumed by the header-seek loop for a given `header_row`. -/
def headerReads (hr : Nat) : Nat := headerRowReads 2 hr 1

/-- The line left in `row` when the header-seek loop finishes: the last
line read (a failed `getline` leaves an empty string). -/
def headerLine (hr : Nat) (lines : List Str) : Str :=
  lines.getD (headerReads hr - 1) []

theorem headerReads_eq (hr : Nat) : headerReads hr = if hr = 2 then 2 else 1 := by
  by_cases h : hr = 2
  · simp [headerReads, headerRowReads, h]
  · simp [headerReads, headerRowReads, h]
    omega

/- ======= Arity checks ======= -/

/-- `checkMaxArgs(const std::size_t value)` (lines 272-279): uniform
mode accepts the resolved maximal arity or any value when the output
type is `std::vector<front_t>`; positional mode accepts only
`max_args_multiple_types`. -/
def checkMaxArgsVal (m : Mode) (value : Nat) : Bool :=
  match m with
  | .uniform _ isVec maxA => decide (maxA = value) || isVec
  | .positional tys => decide (tys.length = value)

/-- `checkMaxArgs(const std::vector<std::string>&)` (lines 281-294):
throws `WrongHeaderLength` when the candidate header's length differs
from the resolved arity, except under the uniform-mode
`std::vector<front_t>` escape. -/
def checkMaxArgsHeader (m : Mode) (temp : List Str) : Except ParseErr Unit :=
  match m with
  | .uniform _ isVec maxA =>
    if maxA ≠ temp.length ∧ isVec = false then .error .wrongHeaderLength else .ok ()
  | .positional tys =>
    if tys.length ≠ temp.length then .error .wrongHeaderLength else .ok ()

/- ======= `trust_header` ======= -/

/-- One pass of the
`while (std::getline(ss, cell, delimiter)) try_header.push_back(parseCSVCell<std::string>(ss, cell));`
header-splitting loop (lines 505-507 / 534-536), with fuel bounding the
iteration count; each `parseCSVCell` may consume further segments, so
at least one segment disappears per iteration and a fuel equal to the
segment count realises the loop (see `splitCellsLoop_fuel`). -/
def splitCellsLoop (q d : Char) : Nat → List Str → Except CellError (List Str)
  | _, [] => .ok []
  | 0, _ :: _ => .ok []
  | fuel + 1, c :: rest =>
    match parseStringCell q d c rest with
    | .error e => .error e
    | .ok (s, r) =>
      match splitCellsLoop q d fuel r with
      | .error e => .error e
      | .ok ss => .ok (s :: ss)

/-- Split a header row into quote-aware cells, as the header-splitting
loops of `trust_header` do. -/
def splitHeaderCells (q d : Char) (row : Str) : Except CellError (List Str) :=
  splitCellsLoop q d (splitRow d row).length (splitRow d row)

/-- The user-header candidate loop of `trust_header` (lines 529-544):
try each default delimiter in order; the first whose quote-aware split
of the header row has the user header's length is adopted and
`setHeader(try_header)` stores that split; an unterminated-quote throw
escapes; if no candidate matches, control falls through to the final
`WrongHeaderByAllDelimiters` throw (line 584). -/
def tryCandidatesUser (m : Mode) (q : Char) (userHeader : List Str) (row : Str) :
    List Char → Except ParseErr TrustResult
  | [] => .error .wrongHeaderByAllDelimiters
  | d :: ds =>
    match splitHeaderCells q d row with
    | .error _ => .error .cellException
    | .ok th =>
      if th.length = userHeader.length ∧ userHeader ≠ [] then
        match checkMaxArgsHeader m th with
        | .error e => .error e
        | .ok _ => .ok ⟨true, d, th⟩
      else tryCandidatesUser m q userHeader row ds

/-- The `detected_values` map built by the candidate loop when no user
header is present (lines 529-544): every default delimiter's
quote-aware split of the header row, with its length. -/
def allCandidateSplits (q : Char) (row : Str) :
    List Char → Except ParseErr (List (Char × Nat × List Str))
  | [] => .ok []
  | d :: ds =>
    match splitHeaderCells q d row with
    | .error _ => .error .cellException
    | .ok th =>
      match allCandidateSplits q row ds with
      | .error e => .error e
      | .ok rest => .ok ((d, th.length, th) :: rest)

/-- Key lookup in the modelled `detected_values` map. -/
def lookupDV (dv : List (Char × Nat × List Str)) (d : Char) : Option (Nat × List Str) :=
  match dv with
  | [] => none
  | (c, p) :: rest => if c = d then some p else lookupDV rest d

/-- The second candidate loop of `trust_header` (lines 556-572): for
each default delimiter in order, count the plain `getline` split of the
next physical line and adopt the first delimiter whose header-row split
length equals that count, with the count non-zero and accepted by
`checkMaxArgs`. -/
def findGoodDelim (m : Mode) (dv : List (Char × Nat × List Str)) (nextRow : Str) :
    List Char → Option (Char × List Str)
  | [] => none
  | d :: ds =>
    let cnt := (splitRow d nextRow).length
    match lookupDV dv d with
    | some (n, th) =>
      if n = cnt ∧ 0 < cnt ∧ checkMaxArgsVal m cnt then some (d, th)
      else findGoodDelim m dv nextRow ds
    | none => findGoodDelim m dv nextRow ds

/-- `trust_header` (lines 485-585) on the file's lines.  Returns the
`{custom_header, delimiter}` pair together with the header left in the
parser.  File-open failure is outside the model (the line source is
given). -/
def trustHeader (P : Parser) (lines : List Str) : Except ParseErr TrustResult :=
  let row := headerLine P.header_row lines
  if P.delimiter ≠ nullChar then
    match splitHeaderCells P.quote P.delimiter row with
    | .error _ => .error .cellException
    | .ok try_header =>
      if P.header = [] then
        match checkMaxArgsHeader P.mode try_header with
        | .error e => .error e
        | .ok _ => .ok ⟨false, P.delimiter, try_header⟩
      else if try_header.length = P.header.length then .ok ⟨true, P.delimiter, P.header⟩
      else .error .wrongHeaderByDelimiter
  else
    if P.header ≠ [] then
      tryCandidatesUser P.mode P.quote P.header row defaultDelimiters
    else
      match allCandidateSplits P.quote row defaultDelimiters with
      | .error e => .error e
      | .ok dv =>
        let nextRow := lines.getD (headerReads P.header_row) []
        match findGoodDelim P.mode dv nextRow defaultDelimiters with
        | some (gd, th) =>
          match checkMaxArgsHeader P.mode th with
          | .error e => .error e
          | .ok _ => .ok ⟨false, gd, th⟩
        | none => .error .wrongHeaderByAllDelimiters

/- ======= Construction surface ======= -/

/-- `CSVParser(const std::vector<std::string>& header_)` (lines
363-373): `setHeader` validates the user header against the resolved
arity before it is stored; defaults are no delimiter, double quote,
header row 1. -/
def mkParserWithHeader (m : Mode) (header_ : List Str) : Except ParseErr Parser :=
  match checkMaxArgsHeader m header_ with
  | .error e => .error e
  | .ok _ => .ok ⟨m, header_, false, false, nullChar, dquote, 1⟩

/-- `CSVParser()` (lines 376-378). -/
def mkParser (m : Mode) : Parser := ⟨m, [], false, false, nullChar, dquote, 1⟩

/-- The state updates `initialize` (lines 399-415) applies from the
`trust_header` result. -/
def applyTrust (P : Parser) (r : TrustResult) : Parser :=
  { P with custom_header := r.custom, delimiter := r.delim, header := r.header }

/- ======= Container materializers ======= -/

/-- The data-row loop of the `std::vector` / `std::set` overload of
`parseObjectsFromFile` (lines 692-705): skip empty lines, parse each
remaining line to an object, accumulate in input order; a throwing row
aborts the loop with its exception. -/
def parseRowsVec (P : Parser) : List Str → Except ParseErr (List (List Value))
  | [] => .ok []
  | r :: rs =>
    if r = [] then parseRowsVec P rs
    else
      match parseObjectFromRow P r with
      | .error e => .error e
      | .ok o =>
        match parseRowsVec P rs with
        | .error e => .error e
        | .ok os => .ok (o :: os)

/-- The body of the vector/set `parseObjectsFromFile` overload before
its `try`/`catch`: `initialize` (whose work is `trust_header` plus
skipping `headerReads` lines of the stream) followed by the row
loop. -/
def parseObjectsFromFileBody (P : Parser) (lines : List Str) :
    Except ParseErr (List (List Value)) :=
  match trustHeader P lines with
  | .error e => .error e
  | .ok r => parseRowsVec (applyTrust P r) (lines.drop (headerReads P.header_row))

/-- The vector/set `parseObjectsFromFile` overload (lines 679-717) with
its call-boundary `try`/`catch`: `WrongHeaderLength` is rethrown, every
other exception is logged and an empty container is returned. -/
def parseObjectsFromFileVec (P : Parser) (lines : List Str) :
    Except ParseErr (List (List Value)) :=
  match parseObjectsFromFileBody P lines with
  | .ok os => .ok os
  | .error .wrongHeaderLength => .error .wrongHeaderLength
  | .error _ => .ok []

/-- `unordered_map` insertion `result[k] = v`: overwrite the entry when
the key exists, append otherwise (last write wins). -/
def mapInsert (k : Int) (v : List Value) :
    List (Int × List Value) → List (Int × List Value)
  | [] => [(k, v)]
  | (k2, v2) :: rest => if k2 = k then (k, v) :: rest else (k2, v2) :: mapInsert k v rest

/-- The data-row loop of the `unordered_map` overload of
`parseObjectsFromFile` (lines 657-676), which requires `HasIdMember`:
each object is stored under `newObject.getId()` (`gid`); there is no
`try`/`catch`, so exceptions propagate. -/
def parseMapRows (P : Parser) (gid : List Value → Int) :
    List Str → List (Int × List Value) → Except ParseErr (List (Int × List Value))
  | [], acc => .ok acc
  | r :: rs, acc =>
    if r = [] then parseMapRows P gid rs acc
    else
      match parseObjectFromRow P r with
      | .error e => .error e
      | .ok o => parseMapRows P gid rs (mapInsert (gid o) o acc)

/-- The `unordered_map` overload of `parseObjectsFromFile`
(lines 657-676), end to end. -/
def parseObjectsFromFileMap (P : Parser) (gid : List Value → Int) (lines : List Str) :
    Except ParseErr (List (Int × List Value)) :=
  match trustHeader P lines with
  | .error e => .error e
  | .ok r => parseMapRows (applyTrust P r) gid (lines.drop (headerReads P.header_row)) []

/-- The `unordered_map<int, TObject>` branch of the vector/set overload
(lines 700-703): the key is `has_id ? newObject.id : ++objectIdCounter`,
with the static `objectIdCounter` threaded explicitly; `oid` reads the
object's `id` member.  (`has_id` is initialized `false` at line 267 and
never assigned, so the counter arm is the one the program can take.) -/
def parseMapRowsCounter (P : Parser) (oid : List Value → Int) :
    List Str → List (Int × List Value) → Int →
    Except ParseErr (List (Int × List Value) × Int)
  | [], acc, ctr => .ok (acc, ctr)
  | r :: rs, acc, ctr =>
    if r = [] then parseMapRowsCounter P oid rs acc ctr
    else
      match parseObjectFromRow P r with
      | .error e => .error e
      | .ok o =>
        if P.has_id then parseMapRowsCounter P oid rs (mapInsert (oid o) o acc) ctr
        else parseMapRowsCounter P oid rs (mapInsert (ctr + 1) o acc) (ctr + 1)

/- ======= Helper lemmas: positional row construction ======= -/

theorem parseMultipleTypesRow_map_fst (q d : Char) :
    ∀ (tys : List FieldTy) (segs : List Str),
      (parseMultipleTypesRow q d tys segs).map Prod.fst = tys
  | [], _ => rfl
  | ty :: tys, segs => by
    simp [parseMultipleTypesRow, parseMultipleTypesRow_map_fst q d tys]

theorem extractAndAdvanceAll_self :
    ∀ nodes : List (FieldTy × Value),
      extractAndAdvanceAll (nodes.map Prod.fst) nodes = .ok (nodes.map Prod.snd)
  | [] => rfl
  | (ty, v) :: rest => by
    simp [extractAndAdvanceAll, extractAndAdvanceAll_self rest]

theorem buildTupleFromNodes_ok (tys : List FieldTy) (nodes : List (FieldTy × Value))
    (h : nodes.map Prod.fst = tys) :
    buildTupleFromNodes tys nodes = .ok (nodes.map Prod.snd) := by
  subst h
  rw [buildTupleFromNodes, ← List.map_reverse, extractAndAdvanceAll_self]
  simp [List.map_reverse]

theorem parseObjectFromRowMT_ok (q d : Char) (tys : List FieldTy) (row : Str) :
    parseObjectFromRowMT q d tys row
      = .ok ((parseMultipleTypesRow q d tys (splitRow d row)).map Prod.snd) :=
  buildTupleFromNodes_ok _ _ (parseMultipleTypesRow_map_fst q d tys _)

theorem parseRowsVec_positional (P : Parser) (tys : List FieldTy)
    (hmode : P.mode = .positional tys) :
    ∀ rows : List Str,
      parseRowsVec P rows
        = .ok ((rows.filter (fun r => !r.isEmpty)).map
            (fun r =>
              (parseMultipleTypesRow P.quote P.delimiter tys (splitRow P.delimiter r)).map
                Prod.snd))
  | [] => rfl
  | r :: rs => by
    by_cases hr : r = []
    · subst hr
      simp [parseRowsVec, List.filter_cons, parseRowsVec_positional P tys hmode rs]
    · have hobj : parseObjectFromRow P r
          = .ok ((parseMultipleTypesRow P.quote P.delimiter tys
              (splitRow P.delimiter r)).map Prod.snd) := by
        simp [parseObjectFromRow, hmode, parseObjectFromRowMT_ok]
      have hne : r.isEmpty = false := by
        cases r with
        | nil => exact absurd rfl hr
        | cons c cs => rfl
      simp [parseRowsVec, hr, hobj, parseRowsVec_positional P tys hmode rs,
        List.filter_cons, hne]

/-- C1: in positional mode the node chain is built in declared
field-type order, the tuple assembled from it lists exactly the node
values in that order (construction always succeeds), and node `i`
carries the value decoded at declared type `i`; the tuple is what
`make_from_tuple` expands positionally into the constructor. -/
theorem c1_positional_order (q d : Char) (tys : List FieldTy) (row : Str) :
    parseObjectFromRowMT q d tys row
      = .ok ((parseMultipleTypesRow q d tys (splitRow d row)).map Prod.snd)
  ∧ (parseMultipleTypesRow q d tys (splitRow d row)).map Prod.fst = tys :=
  ⟨parseObjectFromRowMT_ok q d tys row, parseMultipleTypesRow_map_fst q d tys _⟩

/- ======= Cell-level claims ======= -/

/-- C8: decoding an empty cell yields the target type's zero/default
value for every field type, consuming nothing further from the stream
and never raising a failure. -/
theorem c8_empty_cell_default (q d : Char) (ty : FieldTy) (segs : List Str) :
    parseCell q d ty [] segs = .ok (defaultValue ty, segs) := by
  cases ty <;> rfl

/-- C5: a string cell of the form `quote ++ a ++ delim ++ b ++ quote`
(with `a`, `b` quote-free), arriving at the tokenizer as the segment
`quote ++ a` followed by the stream segment `b ++ quote`, decodes to
exactly `a ++ delim ++ b`: the leading quote is stripped, the delimiter
is re-inserted literally, and the closing quote is stripped. -/
theorem c5_quoted_cell (q d : Char) (a b : Str) (segs : List Str)
    (ha : q ∉ a) (_hb : q ∉ b) :
    parseStringCell q d (q :: a) ((b ++ [q]) :: segs) = .ok (a ++ d :: b, segs) := by
  have hsplit : a ++ d :: (b ++ [q]) = (a ++ d :: b) ++ [q] := by simp
  have hlast : (a ++ d :: (b ++ [q])).getLast? = some q := by
    rw [hsplit]; exact List.getLast?_concat _
  have hdrop : (a ++ d :: (b ++ [q])).dropLast = a ++ d :: b := by
    rw [hsplit]; exact List.dropLast_concat
  have hnc : ¬(a ≠ [] ∧ a.getLast? = some q) := by
    rintro ⟨hne, hl⟩
    have h1 : q ∈ a.getLast? := by rw [Option.mem_def]; exact hl
    obtain ⟨hne2, heq⟩ := List.mem_getLast?_eq_getLast h1
    exact ha (heq ▸ List.getLast_mem hne2)
  have hmerge : mergeQuotedSegs q d a ((b ++ [q]) :: segs)
      = .ok ((a ++ d :: (b ++ [q])).dropLast, segs) := by
    cases segs with
    | nil => simp [mergeQuotedSegs, hlast]
    | cons s ss => simp [mergeQuotedSegs, hlast]
  simp only [parseStringCell, if_pos rfl, if_neg hnc, hmerge, hdrop, if_true]

/-- C7: a cell whose text has no valid leading representation of its
arithmetic target type is recovered locally: its decoded value becomes
the type's zero, the node for that field is still built and the
following fields of the row are still decoded, and a vector-container
parse still constructs and includes one object for every non-empty
row (the failure never aborts the parse in progress). -/
theorem c7_cell_failure_recovered (q d : Char) (cell : Str) (segs : List Str)
    (tys2 : List FieldTy) (P : Parser) (tys : List FieldTy) (rows : List Str)
    (hfail : parseCSVCellInt cell = .error .decodeFail)
    (hmode : P.mode = .positional tys) :
    parseCellRecover q d .int cell segs = (Value.vInt 0, segs)
  ∧ parseMultipleTypesRow q d (.int :: tys2) (cell :: segs)
      = (.int, Value.vInt 0) :: parseMultipleTypesRow q d tys2 segs
  ∧ parseRowsVec P rows
      = .ok ((rows.filter (fun r => !r.isEmpty)).map
          (fun r =>
            (parseMultipleTypesRow P.quote P.delimiter tys (splitRow P.delimiter r)).map
              Prod.snd)) := by
  have hrec : parseCellRecover q d .int cell segs = (Value.vInt 0, segs) := by
    simp [parseCellRecover, parseCell, hfail, defaultValue]
  refine ⟨hrec, ?_, parseRowsVec_positional P tys hmode rows⟩
  simp [parseMultipleTypesRow, hrec]

/- ======= Helper lemmas: arity checks ======= -/

theorem checkMaxArgsHeader_ok_iff (m : Mode) (t : List Str) (hnv : noVecEscape m) :
    checkMaxArgsHeader m t = .ok () ↔ t.length = resolvedArity m := by
  cases m with
  | uniform ty isVec maxA =>
    have hv : isVec = false := hnv
    subst hv
    by_cases h : maxA = t.length <;>
      simp [checkMaxArgsHeader, resolvedArity, h, eq_comm]
  | positional tys =>
    by_cases h : tys.length = t.length <;>
      simp [checkMaxArgsHeader, resolvedArity, h, eq_comm]

theorem checkMaxArgsHeader_length_congr (m : Mode) (t1 t2 : List Str)
    (h : t1.length = t2.length) : checkMaxArgsHeader m t1 = checkMaxArgsHeader m t2 := by
  cases m <;> simp [checkMaxArgsHeader, h]

theorem checkMaxArgsVal_header_ok (m : Mode) (t : List Str)
    (h : checkMaxArgsVal m t.length = true) : checkMaxArgsHeader m t = .ok () := by
  cases m with
  | uniform ty isVec maxA =>
    simp [checkMaxArgsVal] at h
    rcases h with h | h
    · simp [checkMaxArgsHeader, h]
    · simp [checkMaxArgsHeader, h]
  | positional tys =>
    simp [checkMaxArgsVal] at h
    simp [checkMaxArgsHeader, h]

/- ======= Helper lemmas: candidate loops ======= -/

theorem allCandidateSplits_isOk (q : Char) (row : Str) :
    ∀ cs : List Char,
      (∀ d ∈ cs, (splitHeaderCells q d row).isOk = true) →
      ∃ dv, allCandidateSplits q row cs = .ok dv
  | [], _ => ⟨[], rfl⟩
  | d :: ds, h => by
    have hd := h d (List.mem_cons_self d ds)
    cases hs : splitHeaderCells q d row with
    | error e => rw [hs] at hd; simp [Except.isOk, Except.toBool] at hd
    | ok th =>
      obtain ⟨dv, hdv⟩ := allCandidateSplits_isOk q row ds
        (fun d2 h2 => h d2 (List.mem_cons_of_mem d h2))
      exact ⟨(d, th.length, th) :: dv, by simp [allCandidateSplits, hs, hdv]⟩

theorem allCandidateSplits_lookup (q : Char) (row : Str) :
    ∀ (cs : List Char) (dv : List (Char × Nat × List Str)),
      allCandidateSplits q row cs = .ok dv →
      ∀ d ∈ cs, ∃ th, splitHeaderCells q d row = .ok th
        ∧ lookupDV dv d = some (th.length, th)
  | [], dv, _, d, hmem => absurd hmem (List.not_mem_nil d)
  | c :: cs, dv, hok, d, hmem => by
    rw [allCandidateSplits] at hok
    cases hs : splitHeaderCells q c row with
    | error e => rw [hs] at hok; exact absurd hok (by simp)
    | ok th =>
      rw [hs] at hok
      cases hrest : allCandidateSplits q row cs with
      | error e => rw [hrest] at hok; exact absurd hok (by simp)
      | ok rest =>
        rw [hrest] at hok
        have hdv : dv = (c, th.length, th) :: rest := by
          have := hok
          simp at this
          exact this.symm
        subst hdv
        by_cases hdc : c = d
        · subst hdc
          exact ⟨th, hs, by simp [lookupDV]⟩
        · rcases List.mem_cons.mp hmem with h | h
          · exact absurd h.symm hdc
          · obtain ⟨th2, hs2, hl2⟩ := allCandidateSplits_lookup q row cs rest hrest d h
            exact ⟨th2, hs2, by simp [lookupDV, hdc, hl2]⟩

/-- The agreement condition of the delimiter-inference loop, stated
directly on the two physical lines it examines: the quote-aware split
of the header-row line by `d` and the plain split of the next physical
line have the same length, that length is non-zero, and the arity
check accepts it. -/
def goodCand (m : Mode) (q : Char) (row nextRow : Str) (d : Char) : Bool :=
  match splitHeaderCells q d row with
  | .ok th =>
    decide (th.length = (splitRow d nextRow).length)
      && decide (0 < (splitRow d nextRow).length)
      && checkMaxArgsVal m (splitRow d nextRow).length
  | .error _ => false

theorem findGoodDelim_none (m : Mode) (q : Char) (row nextRow : Str)
    (dv : List (Char × Nat × List Str)) :
    ∀ cs : List Char,
      (∀ d ∈ cs, ∃ th, splitHeaderCells q d row = .ok th
        ∧ lookupDV dv d = some (th.length, th)) →
      (∀ d ∈ cs, goodCand m q row nextRow d = false) →
      findGoodDelim m dv nextRow cs = none
  | [], _, _ => rfl
  | c :: cs, hdv, hbad => by
    obtain ⟨th, hs, hl⟩ := hdv c (List.mem_cons_self c cs)
    have hb := hbad c (List.mem_cons_self c cs)
    rw [goodCand, hs] at hb
    simp only [Bool.and_eq_false_iff, decide_eq_false_iff_not] at hb
    have hcond : ¬(th.length = (splitRow c nextRow).length
        ∧ 0 < (splitRow c nextRow).length
        ∧ checkMaxArgsVal m (splitRow c nextRow).length = true) := by
      rintro ⟨h1, h2, h3⟩
      rcases hb with (hb | hb) | hb
      · exact hb h1
      · exact hb h2
      · rw [h3] at hb; exact Bool.noConfusion hb
    rw [findGoodDelim, hl]
    simp only [hcond, if_false]
    exact findGoodDelim_none m q row nextRow dv cs
      (fun d2 h2 => hdv d2 (List.mem_cons_of_mem c h2))
      (fun d2 h2 => hbad d2 (List.mem_cons_of_mem c h2))

theorem findGoodDelim_first (m : Mode) (q : Char) (row nextRow : Str)
    (dv : List (Char × Nat × List Str)) (d : Char) (th : List Str)
    (hd : splitHeaderCells q d row = .ok th)
    (hl : lookupDV dv d = some (th.length, th))
    (hgood : goodCand m q row nextRow d = true) :
    ∀ pre post : List Char,
      (∀ d2 ∈ pre, ∃ th2, splitHeaderCells q d2 row = .ok th2
        ∧ lookupDV dv d2 = some (th2.length, th2)) →
      (∀ d2 ∈ pre, goodCand m q row nextRow d2 = false) →
      findGoodDelim m dv nextRow (pre ++ d :: post) = some (d, th)
  | [], post, _, _ => by
    rw [goodCand, hd] at hgood
    simp only [Bool.and_eq_true, decide_eq_true_eq] at hgood
    obtain ⟨⟨h1, h2⟩, h3⟩ := hgood
    rw [List.nil_append, findGoodDelim, hl]
    simp [h1, h2, h3]
  | c :: pre, post, hdv, hbad => by
    obtain ⟨th2, hs2, hl2⟩ := hdv c (List.mem_cons_self c pre)
    have hb := hbad c (List.mem_cons_self c pre)
    rw [goodCand, hs2] at hb
    simp only [Bool.and_eq_false_iff, decide_eq_false_iff_not] at hb
    have hcond : ¬(th2.length = (splitRow c nextRow).length
        ∧ 0 < (splitRow c nextRow).length
        ∧ checkMaxArgsVal m (splitRow c nextRow).length = true) := by
      rintro ⟨h1, h2, h3⟩
      rcases hb with (hb | hb) | hb
      · exact hb h1
      · exact hb h2
      · rw [h3] at hb; exact Bool.noConfusion hb
    rw [List.cons_append, findGoodDelim, hl2]
    simp only [hcond, if_false]
    exact findGoodDelim_first m q row nextRow dv d th hd hl hgood pre post
      (fun d2 h2 => hdv d2 (List.mem_cons_of_mem c h2))
      (fun d2 h2 => hbad d2 (List.mem_cons_of_mem c h2))

theorem tryCandidatesUser_first (m : Mode) (q : Char) (uh : List Str) (row : Str)
    (d : Char) (th : List Str)
    (hchk : checkMaxArgsHeader m th = .ok ())
    (hlen : th.length = uh.length) (hne : uh ≠ [])
    (hd : splitHeaderCells q d row = .ok th) :
    ∀ pre post : List Char,
      (∀ d2 ∈ pre, ∃ th2, splitHeaderCells q d2 row = .ok th2
        ∧ th2.length ≠ uh.length) →
      tryCandidatesUser m q uh row (pre ++ d :: post) = .ok ⟨true, d, th⟩
  | [], post, _ => by
    rw [List.nil_append, tryCandidatesUser, hd]
    simp [hlen, hne, hchk]
  | c :: pre, post, hpre => by
    obtain ⟨th2, hs2, hne2⟩ := hpre c (List.mem_cons_self c pre)
    rw [List.cons_append, tryCandidatesUser, hs2]
    have hcond : ¬(th2.length = uh.length ∧ uh ≠ []) := by
      rintro ⟨h1, _⟩
      exact hne2 h1
    simp only [hcond, if_false]
    exact tryCandidatesUser_first m q uh row d th hchk hlen hne hd pre post
      (fun d2 h2 => hpre d2 (List.mem_cons_of_mem c h2))

theorem tryCandidatesUser_ok_check (m : Mode) (q : Char) (uh : List Str) (row : Str) :
    ∀ (cs : List Char) (r : TrustResult),
      tryCandidatesUser m q uh row cs = .ok r →
      checkMaxArgsHeader m r.header = .ok ()
  | [], r, h => absurd h (by simp [tryCandidatesUser])
  | c :: cs, r, h => by
    rw [tryCandidatesUser] at h
    cases hs : splitHeaderCells q c row with
    | error e => rw [hs] at h; exact absurd h (by simp)
    | ok th =>
      simp only [hs] at h
      by_cases hcond : th.length = uh.length ∧ uh ≠ []
      · rw [if_pos hcond] at h
        cases hchk : checkMaxArgsHeader m th with
        | error e => simp only [hchk] at h; exact absurd h (by simp)
        | ok u =>
          cases u
          simp only [hchk] at h
          have h2 := Except.ok.inj h
          subst h2
          exact hchk
      · rw [if_neg hcond] at h
        exact tryCandidatesUser_ok_check m q uh row cs r h

/- ======= Header-row and inference claims ======= -/

/-- C2: the header-seek loop `do {getline; cnt++} while (cnt == header_row)`
continues only while the incremented counter equals the header row, so
for `header_row = 3` it reads exactly one line and the header is taken
from physical line 1, not line 3: with a preset comma delimiter and
lines `a,b` / `c,d` / `e,f`, the adopted header is the split of `a,b`.
The claim's promised behaviour (discard `h-1` lines, header from line
`h`) therefore fails for every `h >= 3`. -/
theorem c2_header_row_three_eval :
    headerReads 3 = 1
  ∧ trustHeader
      { mode := .positional [.int, .int], header := [], custom_header := false,
        has_id := false, delimiter := ',', quote := dquote, header_row := 3 }
      [['a', ',', 'b'], ['c', ',', 'd'], ['e', ',', 'f']]
      = .ok ⟨false, ',', [['a'], ['b']]⟩ := by
  exact ⟨by decide, by decide⟩

/-- C3 counterexample: with `TObject = std::vector<front_t>` in uniform
mode (resolved constructor arity 0, `checkMaxArgs` escape), delimiter
inference succeeds and adopts the comma although the agreeing split
length 2 differs from the resolved arity 0 - so, contrary to the
claim, "split length equals the resolved constructor arity" is not
required for adoption, and the promised `HeaderAmbiguous` failure does
not occur. -/
theorem c3_vector_escape_cex :
    trustHeader
      { mode := .uniform .str true 0, header := [], custom_header := false,
        has_id := false, delimiter := nullChar, quote := dquote, header_row := 1 }
      [['a', ',', 'b'], ['c', ',', 'd']]
      = .ok ⟨false, ',', [['a'], ['b']]⟩
  ∧ resolvedArity (.uniform .str true 0) ≠ 2 := by
  exact ⟨by decide, by decide⟩

/-- C3 (amended): when no delimiter is set and no user header is
supplied, the adopted delimiter is the first candidate in the fixed
order whose header-row split length equals its split length on the
next physical line, is non-zero, and passes the arity-compatibility
check `checkMaxArgs` (equality with the resolved arity except under
the sequence-output escape); that candidate's header-row split becomes
the header, and if no candidate satisfies the conditions the parse
fails with the per-candidate `WrongHeaderByAllDelimiters`
diagnostic. -/
theorem c3_first_agreeing_candidate (P : Parser) (lines : List Str)
    (hdelim : P.delimiter = nullChar) (hhd : P.header = [])
    (hsplits : ∀ d2 ∈ defaultDelimiters,
      (splitHeaderCells P.quote d2 (headerLine P.header_row lines)).isOk = true) :
    (∀ (pre post : List Char) (d : Char) (th : List Str),
        defaultDelimiters = pre ++ d :: post →
        splitHeaderCells P.quote d (headerLine P.header_row lines) = .ok th →
        goodCand P.mode P.quote (headerLine P.header_row lines)
          (lines.getD (headerReads P.header_row) []) d = true →
        (∀ d2 ∈ pre, goodCand P.mode P.quote (headerLine P.header_row lines)
          (lines.getD (headerReads P.header_row) []) d2 = false) →
        trustHeader P lines = .ok ⟨false, d, th⟩)
  ∧ ((∀ d ∈ defaultDelimiters, goodCand P.mode P.quote (headerLine P.header_row lines)
        (lines.getD (headerReads P.header_row) []) d = false) →
      trustHeader P lines = .error .wrongHeaderByAllDelimiters) := by
  obtain ⟨dv, hdv⟩ := allCandidateSplits_isOk P.quote (headerLine P.header_row lines)
    defaultDelimiters hsplits
  have hlook := allCandidateSplits_lookup P.quote (headerLine P.header_row lines)
    defaultDelimiters dv hdv
  have hnn : ¬(P.delimiter ≠ nullChar) := by simp [hdelim]
  have hhd2 : ¬(P.header ≠ []) := by simp [hhd]
  constructor
  · intro pre post d th hcands hsplit hgood hpre
    have hmemd : d ∈ defaultDelimiters := by
      rw [hcands]; exact List.mem_append_right pre (List.mem_cons_self d post)
    obtain ⟨th1, hs1, hl1⟩ := hlook d hmemd
    rw [hsplit] at hs1
    obtain rfl : th = th1 := Except.ok.inj hs1
    have hfind := findGoodDelim_first P.mode P.quote (headerLine P.header_row lines)
      (lines.getD (headerReads P.header_row) []) dv d th hsplit hl1 hgood pre post
      (fun d2 h2 => hlook d2 (by rw [hcands]; exact List.mem_append_left _ h2))
      hpre
    have hchk : checkMaxArgsHeader P.mode th = .ok () := by
      rw [goodCand, hsplit] at hgood
      simp only [Bool.and_eq_true, decide_eq_true_eq] at hgood
      obtain ⟨⟨h1, _⟩, h3⟩ := hgood
      exact checkMaxArgsVal_header_ok P.mode th (by rw [h1]; exact h3)
    simp only [trustHeader]
    rw [if_neg hnn, if_neg hhd2]
    simp only [hdv]
    rw [hcands]
    simp only [hfind, hchk]
  · intro hbad
    have hfind := findGoodDelim_none P.mode P.quote (headerLine P.header_row lines)
      (lines.getD (headerReads P.header_row) []) dv defaultDelimiters hlook hbad
    simp only [trustHeader]
    rw [if_neg hnn, if_neg hhd2]
    simp only [hdv, hfind]

/-- C4 counterexample: with user header `A`,`B`, no delimiter set, and
file header line `x,y`, the comma is adopted (sizes match) but
`setHeader(try_header)` stores the file's split `x`,`y` - the
user-supplied header is not kept, contrary to the claim. -/
theorem c4_user_header_replaced_cex :
    trustHeader
      { mode := .positional [.str, .str], header := [['A'], ['B']], custom_header := false,
        has_id := false, delimiter := nullChar, quote := dquote, header_row := 1 }
      [['x', ',', 'y']]
      = .ok ⟨true, ',', [['x'], ['y']]⟩
  ∧ ([['x'], ['y']] : List Str) ≠ [['A'], ['B']] := by
  exact ⟨by decide, by decide⟩

/-- C4 (amended): when no delimiter is set but a user header is
supplied, the first candidate delimiter in the fixed order whose
quote-aware split of the header-row line has length equal to the user
header's length is adopted, the custom-header flag is set, and that
candidate's split of the header row replaces the stored header (only
its length survives from the user's preference). -/
theorem c4_first_matching_candidate (P : Parser) (lines : List Str)
    (pre post : List Char) (d : Char) (th : List Str)
    (hdelim : P.delimiter = nullChar) (hhd : P.header ≠ [])
    (hchk : checkMaxArgsHeader P.mode P.header = .ok ())
    (hcands : defaultDelimiters = pre ++ d :: post)
    (hpre : ∀ d2 ∈ pre, ∃ th2,
      splitHeaderCells P.quote d2 (headerLine P.header_row lines) = .ok th2
        ∧ th2.length ≠ P.header.length)
    (hd : splitHeaderCells P.quote d (headerLine P.header_row lines) = .ok th)
    (hlen : th.length = P.header.length) :
    trustHeader P lines = .ok ⟨true, d, th⟩ := by
  have hnn : ¬(P.delimiter ≠ nullChar) := by simp [hdelim]
  have hchkth : checkMaxArgsHeader P.mode th = .ok () := by
    rw [checkMaxArgsHeader_length_congr P.mode th P.header hlen]
    exact hchk
  have htry := tryCandidatesUser_first P.mode P.quote P.header
    (headerLine P.header_row lines) d th hchkth hlen hhd hd pre post hpre
  simp only [trustHeader]
  rw [if_neg hnn, if_pos hhd, hcands]
  exact htry

/-- C6 counterexample: in uniform mode with
`TObject = std::vector<front_t>` (resolved constructor arity 0, e.g.
`CSVParser<std::vector<std::string>, std::string>`), construction with
a 1-column user header succeeds although the header length differs
from the resolved arity, and a data row is then still parsed - so the
claimed unconditional header-length/arity failure does not hold. -/
theorem c6_vector_escape_cex :
    (mkParserWithHeader (.uniform .str true 0) [['i', 'd']]).isOk = true
  ∧ ([['i', 'd']] : List Str).length ≠ resolvedArity (.uniform .str true 0)
  ∧ (parseObjectFromRow
      { mode := .uniform .str true 0, header := [['i', 'd']], custom_header := false,
        has_id := false, delimiter := ',', quote := dquote, header_row := 1 }
      ['h', 'i']).isOk = true := by
  exact ⟨by decide, by decide, by decide⟩

/-- C6 (amended): outside the uniform-mode sequence-output escape, a
successfully finalized header always has exactly the resolved
constructor arity: both the header-supplying constructor and
`trust_header` (for a parser whose stored header already passed the
construction-time check) fail with `WrongHeaderLength` on any
mismatch, before any data row is read. -/
theorem c6_header_matches_arity (P : Parser) (lines : List Str) (r : TrustResult)
    (m : Mode) (h0 : List Str) (P0 : Parser)
    (hnv : noVecEscape P.mode)
    (hinv : P.header = [] ∨ checkMaxArgsHeader P.mode P.header = .ok ())
    (htr : trustHeader P lines = .ok r)
    (hnv0 : noVecEscape m)
    (hP0 : mkParserWithHeader m h0 = .ok P0) :
    r.header.length = resolvedArity P.mode ∧ P0.header.length = resolvedArity m := by
  constructor
  · simp only [trustHeader] at htr
    by_cases hd : P.delimiter ≠ nullChar
    · rw [if_pos hd] at htr
      cases hs : splitHeaderCells P.quote P.delimiter (headerLine P.header_row lines) with
      | error e => simp only [hs] at htr; exact absurd htr (by simp)
      | ok th =>
        simp only [hs] at htr
        by_cases hh : P.header = []
        · rw [if_pos hh] at htr
          cases hchk : checkMaxArgsHeader P.mode th with
          | error e => simp only [hchk] at htr; exact absurd htr (by simp)
          | ok u =>
            cases u
            simp only [hchk] at htr
            have h2 := Except.ok.inj htr
            subst h2
            exact (checkMaxArgsHeader_ok_iff P.mode th hnv).mp hchk
        · rw [if_neg hh] at htr
          by_cases hlen : th.length = P.header.length
          · rw [if_pos hlen] at htr
            have h2 := Except.ok.inj htr
            subst h2
            have hc := hinv.resolve_left hh
            exact (checkMaxArgsHeader_ok_iff P.mode P.header hnv).mp hc
          · rw [if_neg hlen] at htr
            exact absurd htr (by simp)
    · rw [if_neg hd] at htr
      by_cases hh : P.header ≠ []
      · rw [if_pos hh] at htr
        have hchk := tryCandidatesUser_ok_check P.mode P.quote P.header
          (headerLine P.header_row lines) defaultDelimiters r htr
        exact (checkMaxArgsHeader_ok_iff P.mode r.header hnv).mp hchk
      · rw [if_neg hh] at htr
        cases hdv : allCandidateSplits P.quote (headerLine P.header_row lines)
            defaultDelimiters with
        | error e => simp only [hdv] at htr; exact absurd htr (by simp)
        | ok dv =>
          simp only [hdv] at htr
          cases hfind : findGoodDelim P.mode dv (lines.getD (headerReads P.header_row) [])
              defaultDelimiters with
          | none => simp only [hfind] at htr; exact absurd htr (by simp)
          | some p =>
            obtain ⟨gd, th⟩ := p
            simp only [hfind] at htr
            cases hchk : checkMaxArgsHeader P.mode th with
            | error e => simp only [hchk] at htr; exact absurd htr (by simp)
            | ok u =>
              cases u
              simp only [hchk] at htr
              have h2 := Except.ok.inj htr
              subst h2
              exact (checkMaxArgsHeader_ok_iff P.mode th hnv).mp hchk
  · rw [mkParserWithHeader] at hP0
    cases hchk : checkMaxArgsHeader m h0 with
    | error e => simp only [hchk] at hP0; exact absurd hP0 (by simp)
    | ok u =>
      cases u
      simp only [hchk] at hP0
      have h2 := Except.ok.inj hP0
      subst h2
      exact (checkMaxArgsHeader_ok_iff m h0 hnv0).mp hchk

/- ======= Helper lemmas: materializers ======= -/

theorem applyTrust_mode (P : Parser) (r : TrustResult) : (applyTrust P r).mode = P.mode := rfl

theorem applyTrust_quote (P : Parser) (r : TrustResult) :
    (applyTrust P r).quote = P.quote := rfl

theorem applyTrust_delimiter (P : Parser) (r : TrustResult) :
    (applyTrust P r).delimiter = r.delim := rfl

theorem applyTrust_header (P : Parser) (r : TrustResult) :
    (applyTrust P r).header = r.header := rfl

theorem parseObjectFromRow_uniform_err (P : Parser) (ty : FieldTy) (maxA : Nat) (row : Str)
    (hmode : P.mode = .uniform ty false maxA) :
    (parseObjectFromRow P row).isOk = true
  ∨ parseObjectFromRow P row = .error .notEnoughArgs := by
  rw [parseObjectFromRow, hmode]
  simp only [Bool.false_eq_true, if_false, constructObjectUniqueTypeArgs]
  split
  · right; rfl
  · left; rfl

theorem parseRowsVec_error_of_mem (P : Parser)
    (hcl : ∀ row : Str, (parseObjectFromRow P row).isOk = true
      ∨ parseObjectFromRow P row = .error .notEnoughArgs) :
    ∀ (rows : List Str) (row : Str), row ∈ rows → row ≠ [] →
      parseObjectFromRow P row = .error .notEnoughArgs →
      parseRowsVec P rows = .error .notEnoughArgs
  | [], row, hmem, _, _ => absurd hmem (List.not_mem_nil row)
  | r :: rs, row, hmem, hne, herr => by
    rw [parseRowsVec]
    by_cases hr : r = []
    · rw [if_pos hr]
      rcases List.mem_cons.mp hmem with h | h
      · exact absurd (h ▸ hr) hne
      · exact parseRowsVec_error_of_mem P hcl rs row h hne herr
    · rw [if_neg hr]
      rcases List.mem_cons.mp hmem with h | h
      · subst h
        simp only [herr]
      · cases hobj : parseObjectFromRow P r with
        | error e =>
          rcases hcl r with hk | hk
          · rw [hobj] at hk; exact absurd hk (by simp [Except.isOk, Except.toBool])
          · rw [hobj] at hk
            have : e = .notEnoughArgs := (Except.error.inj hk)
            subst this
            rfl
        | ok o =>
          simp only [hobj]
          rw [parseRowsVec_error_of_mem P hcl rs row h hne herr]

theorem mapInsert_mem (k : Int) (v : List Value) :
    ∀ (m : List (Int × List Value)) (e : Int × List Value),
      e ∈ mapInsert k v m → e = (k, v) ∨ e ∈ m
  | [], e, h => by
    rw [mapInsert] at h
    rcases List.mem_singleton.mp h with h
    exact Or.inl h
  | (k2, v2) :: rest, e, h => by
    rw [mapInsert] at h
    by_cases hk : k2 = k
    · rw [if_pos hk] at h
      rcases List.mem_cons.mp h with h | h
      · exact Or.inl h
      · exact Or.inr (List.mem_cons_of_mem _ h)
    · rw [if_neg hk] at h
      rcases List.mem_cons.mp h with h | h
      · exact Or.inr (h ▸ List.mem_cons_self _ _)
      · rcases mapInsert_mem k v rest e h with h2 | h2
        · exact Or.inl h2
        · exact Or.inr (List.mem_cons_of_mem _ h2)

theorem parseMapRows_keys (P : Parser) (gid : List Value → Int) :
    ∀ (rows : List Str) (acc m : List (Int × List Value)),
      (∀ e ∈ acc, e.1 = gid e.2) →
      parseMapRows P gid rows acc = .ok m →
      ∀ e ∈ m, e.1 = gid e.2
  | [], acc, m, hacc, hok => by
    rw [parseMapRows] at hok
    have h2 := Except.ok.inj hok
    subst h2
    exact hacc
  | r :: rs, acc, m, hacc, hok => by
    rw [parseMapRows] at hok
    by_cases hr : r = []
    · rw [if_pos hr] at hok
      exact parseMapRows_keys P gid rs acc m hacc hok
    · rw [if_neg hr] at hok
      cases hobj : parseObjectFromRow P r with
      | error e => rw [hobj] at hok; exact absurd hok (by simp)
      | ok o =>
        rw [hobj] at hok
        refine parseMapRows_keys P gid rs (mapInsert (gid o) o acc) m ?_ hok
        intro e he
        rcases mapInsert_mem (gid o) o acc e he with h2 | h2
        · rw [h2]
        · exact hacc e h2

theorem parseMapRowsCounter_mono (P : Parser) (oid : List Value → Int)
    (hid : P.has_id = false) :
    ∀ (rows : List Str) (acc m : List (Int × List Value)) (ctr ctr2 : Int),
      parseMapRowsCounter P oid rows acc ctr = .ok (m, ctr2) →
      ctr ≤ ctr2 ∧ ∀ e ∈ m, e ∈ acc ∨ (ctr < e.1 ∧ e.1 ≤ ctr2)
  | [], acc, m, ctr, ctr2, hok => by
    rw [parseMapRowsCounter] at hok
    have h2 := Except.ok.inj hok
    have hm : acc = m := congrArg Prod.fst h2
    have hc : ctr = ctr2 := congrArg Prod.snd h2
    subst hm
    subst hc
    exact ⟨le_refl ctr, fun e he => Or.inl he⟩
  | r :: rs, acc, m, ctr, ctr2, hok => by
    rw [parseMapRowsCounter] at hok
    by_cases hr : r = []
    · rw [if_pos hr] at hok
      exact parseMapRowsCounter_mono P oid hid rs acc m ctr ctr2 hok
    · rw [if_neg hr] at hok
      cases hobj : parseObjectFromRow P r with
      | error e => rw [hobj] at hok; exact absurd hok (by simp)
      | ok o =>
        rw [hobj, hid] at hok
        simp only [Bool.false_eq_true, if_false] at hok
        obtain ⟨hle, hmem⟩ :=
          parseMapRowsCounter_mono P oid hid rs (mapInsert (ctr + 1) o acc) m (ctr + 1) ctr2 hok
        refine ⟨by omega, fun e he => ?_⟩
        rcases hmem e he with h2 | h2
        · rcases mapInsert_mem (ctr + 1) o acc e h2 with h3 | h3
          · right
            constructor
            · rw [h3]; omega
            · rw [h3]; exact hle
          · exact Or.inl h3
        · right
          exact ⟨by omega, h2.2⟩

/- ======= Materializer claims ======= -/

/-- C9: in the identity-keyed map overload (which requires the output
type to provide `getId`), every entry of the result is keyed by the
identity accessor applied to its own object; in the counter branch
(taken when `has_id` is false, i.e. when no identity is used), keys
come from the shared `objectIdCounter`, which only increments - the
final counter is never below the initial one, and every new entry's
key lies strictly above the counter value the call started from, so
successive calls threading the counter never reuse or reset ids. -/
theorem c9_identity_keys (P : Parser) (gid oid : List Value → Int)
    (lines rows : List Str) (acc m m2 : List (Int × List Value)) (ctr ctr2 : Int)
    (e e2 : Int × List Value) :
    (parseObjectsFromFileMap P gid lines = .ok m → e ∈ m → e.1 = gid e.2)
  ∧ (P.has_id = false → parseMapRowsCounter P oid rows acc ctr = .ok (m2, ctr2) →
      ctr ≤ ctr2 ∧ (e2 ∈ m2 → e2 ∈ acc ∨ (ctr < e2.1 ∧ e2.1 ≤ ctr2))) := by
  constructor
  · intro hok hmem
    rw [parseObjectsFromFileMap] at hok
    cases htr : trustHeader P lines with
    | error er => rw [htr] at hok; exact absurd hok (by simp)
    | ok tr =>
      rw [htr] at hok
      exact parseMapRows_keys (applyTrust P tr) gid
        (lines.drop (headerReads P.header_row)) [] m (by intro e he; cases he) hok
        e hmem
  · intro hid hok
    obtain ⟨hle, hmem⟩ := parseMapRowsCounter_mono P oid hid rows acc m2 ctr ctr2 hok
    exact ⟨hle, fun h => hmem e2 h⟩

/-- C10: in uniform mode with a genuine output object (not the
sequence-of-uniform-type escape), a data row that tokenizes into fewer
cells than the resolved constructor arity makes
`constructObjectUniqueTypeArgs` throw (`Not enough arguments in
vector`), and the vector/set parse call catches this at its call
boundary and returns an empty container, discarding every object
already built from earlier rows of the file. -/
theorem c10_short_row_aborts (P : Parser) (lines : List Str) (r : TrustResult)
    (ty : FieldTy) (maxA : Nat) (row : Str)
    (hmode : P.mode = .uniform ty false maxA)
    (htrust : trustHeader P lines = .ok r)
    (hrow : row ∈ lines.drop (headerReads P.header_row))
    (hne : row ≠ [])
    (hfew : (uniqueCells P.quote r.delim ty r.header.length (splitRow r.delim row)).length
      < maxA) :
    parseObjectFromRow (applyTrust P r) row = .error .notEnoughArgs
  ∧ parseObjectsFromFileVec P lines = .ok [] := by
  have hmode2 : (applyTrust P r).mode = .uniform ty false maxA := by
    rw [applyTrust_mode, hmode]
  have herr : parseObjectFromRow (applyTrust P r) row = .error .notEnoughArgs := by
    rw [parseObjectFromRow, hmode2]
    simp only [Bool.false_eq_true, if_false, constructObjectUniqueTypeArgs,
      applyTrust_quote, applyTrust_delimiter, applyTrust_header]
    rw [if_pos hfew]
  refine ⟨herr, ?_⟩
  have hrows : parseRowsVec (applyTrust P r) (lines.drop (headerReads P.header_row))
      = .error .notEnoughArgs :=
    parseRowsVec_error_of_mem (applyTrust P r)
      (fun row2 => parseObjectFromRow_uniform_err (applyTrust P r) ty maxA row2 hmode2)
      (lines.drop (headerReads P.header_row)) row hrow hne herr
  rw [parseObjectsFromFileVec, parseObjectsFromFileBody]
  simp only [htrust]
  simp only [hrows]

/- ======= Concrete witnesses ======= -/

/-- Witness for C5 at `"x,y"` with comma delimiter: the decoded string
is `x,y`. -/
theorem c5_quoted_cell_witness :
    (dquote ∉ (['x'] : Str)) ∧ (dquote ∉ (['y'] : Str))
  ∧ parseStringCell dquote ',' (dquote :: ['x']) ((['y'] ++ [dquote]) :: [])
      = .ok (['x'] ++ ',' :: ['y'], []) :=
  ⟨by decide, by decide, c5_quoted_cell dquote ',' ['x'] ['y'] [] (by decide) (by decide)⟩

/-- Witness for C3's amended statement on a semicolon-separated
two-column file with no preset delimiter and no user header: the first
agreeing candidate is `;` and its header split is adopted. -/
theorem c3_first_agreeing_candidate_witness :
    trustHeader (mkParser (.positional [.str, .str])) [['a', ';', 'b'], ['1', ';', '2']]
      = .ok ⟨false, ';', [['a'], ['b']]⟩ :=
  (c3_first_agreeing_candidate (mkParser (.positional [.str, .str]))
      [['a', ';', 'b'], ['1', ';', '2']] rfl rfl (by decide)).1
    [',', '\t'] ['|', ':', ' ', '~'] ';' [['a'], ['b']]
    (by decide) (by decide) (by decide) (by decide)

/-- Witness for C4's amended statement: user header of length 2, file
header row `x,y`; the first candidate (comma) matches and its split
replaces the stored header. -/
theorem c4_first_matching_candidate_witness :
    trustHeader
      { mode := .positional [.str, .str], header := [['A'], ['B']], custom_header := false,
        has_id := false, delimiter := nullChar, quote := dquote, header_row := 1 }
      [['x', ',', 'y']] = .ok ⟨true, ',', [['x'], ['y']]⟩ :=
  c4_first_matching_candidate
    { mode := .positional [.str, .str], header := [['A'], ['B']], custom_header := false,
      has_id := false, delimiter := nullChar, quote := dquote, header_row := 1 }
    [['x', ',', 'y']] [] ['\t', ';', '|', ':', ' ', '~'] ',' [['x'], ['y']]
    rfl (by decide) (by decide) (by decide)
    (fun d2 h2 => absurd h2 (List.not_mem_nil d2))
    (by decide) (by decide)

/-- Witness for C6's amended statement: a positional two-column parser
with comma delimiter finalizes a header of length 2 = arity, and a
positional two-column user-header construction stores a header of
length 2 = arity. -/
theorem c6_header_matches_arity_witness :
    (⟨false, ',', [['a'], ['b']]⟩ : TrustResult).header.length
      = resolvedArity (.positional [.int, .int])
  ∧ (⟨.positional [.int, .str], [['k'], ['l']], false, false, nullChar, dquote, 1⟩ :
      Parser).header.length = resolvedArity (.positional [.int, .str]) :=
  c6_header_matches_arity
    ⟨.positional [.int, .int], [], false, false, ',', dquote, 1⟩
    [['a', ',', 'b']] ⟨false, ',', [['a'], ['b']]⟩
    (.positional [.int, .str]) [['k'], ['l']]
    ⟨.positional [.int, .str], [['k'], ['l']], false, false, nullChar, dquote, 1⟩
    (by decide) (Or.inl rfl) (by decide) (by decide) (by decide)

/-- Witness for C7 at the undecodable integer cell `abc`:
the decoded value degrades to 0, the row node is still built, and a
one-row positional file still yields its object. -/
theorem c7_cell_failure_recovered_witness :
    parseCellRecover dquote ',' .int ['a', 'b', 'c'] [] = (Value.vInt 0, [])
  ∧ parseMultipleTypesRow dquote ',' (.int :: []) (['a', 'b', 'c'] :: [])
      = (.int, Value.vInt 0) :: parseMultipleTypesRow dquote ',' [] []
  ∧ parseRowsVec ⟨.positional [.int], [], false, false, ',', dquote, 1⟩ [['1']]
      = .ok (([['1']].filter (fun r => !r.isEmpty)).map
          (fun r => (parseMultipleTypesRow dquote ',' [.int] (splitRow ',' r)).map
            Prod.snd)) :=
  c7_cell_failure_recovered dquote ',' ['a', 'b', 'c'] [] []
    ⟨.positional [.int], [], false, false, ',', dquote, 1⟩ [.int] [['1']]
    (by decide) rfl

/-- Witness for C9: a one-column integer parser with a constant
identity accessor keys its single row by that accessor, and the
counter branch advances the shared counter from 0 to 1, keying the new
entry strictly above the initial counter value. -/
theorem c9_identity_keys_witness :
    (((7 : Int), [Value.vInt 5]).1 = (fun _ => (7 : Int)) ((7 : Int), [Value.vInt 5]).2)
  ∧ ((0 : Int) ≤ 1
      ∧ (((1 : Int), [Value.vInt 5]) ∈ ([((1 : Int), [Value.vInt 5])] :
            List (Int × List Value)) →
          ((1 : Int), [Value.vInt 5]) ∈ ([] : List (Int × List Value))
          ∨ ((0 : Int) < ((1 : Int), [Value.vInt 5]).1
              ∧ ((1 : Int), [Value.vInt 5]).1 ≤ 1))) :=
  ⟨(c9_identity_keys
      ⟨.uniform .int false 1, [['h']], false, false, ',', dquote, 1⟩
      (fun _ => (7 : Int)) (fun _ => (0 : Int)) [['h'], ['5']] [['5']]
      [] [((7 : Int), [Value.vInt 5])] [((1 : Int), [Value.vInt 5])] 0 1
      ((7 : Int), [Value.vInt 5]) ((1 : Int), [Value.vInt 5])).1
    (by decide) (by decide),
   (c9_identity_keys
      ⟨.uniform .int false 1, [['h']], false, false, ',', dquote, 1⟩
      (fun _ => (7 : Int)) (fun _ => (0 : Int)) [['h'], ['5']] [['5']]
      [] [((7 : Int), [Value.vInt 5])] [((1 : Int), [Value.vInt 5])] 0 1
      ((7 : Int), [Value.vInt 5]) ((1 : Int), [Value.vInt 5])).2
    rfl (by decide)⟩

/-- Witness for C10: arity-2 uniform integer parser on a file whose
second data row has a single cell; the short row throws and the whole
vector parse returns the empty container, discarding the object of the
good first data row. -/
theorem c10_short_row_aborts_witness :
    parseObjectFromRow
      (applyTrust ⟨.uniform .int false 2, [], false, false, ',', dquote, 1⟩
        ⟨false, ',', [['h'], ['k']]⟩) ['3']
      = .error .notEnoughArgs
  ∧ parseObjectsFromFileVec ⟨.uniform .int false 2, [], false, false, ',', dquote, 1⟩
      [['h', ',', 'k'], ['1', ',', '2'], ['3']] = .ok [] :=
  c10_short_row_aborts
    ⟨.uniform .int false 2, [], false, false, ',', dquote, 1⟩
    [['h', ',', 'k'], ['1', ',', '2'], ['3']]
    ⟨false, ',', [['h'], ['k']]⟩ .int 2 ['3']
    rfl (by decide) (by decide) (by decide) (by decide)

end CSV
